import Mathlib

/-!
Verification of the algorithms module of the academic system
(03_algorithms_c/algorithms.c): the weighted-average routine
calcular_media_ponderada and the descending performance sort
ordenar_por_desempenho with its comparator comparar_desempenho.

Modelling choices, kept close to the C source:

* The weighted average computes with C `float` values.  We model the value
  type and its arithmetic abstractly through `FPOps`, so every theorem about
  the accumulation structure holds for any interpretation of the operations,
  in particular for IEEE binary32 arithmetic.  `isZero x` models the C
  comparison `x == 0.0f`.

* For the comparator only float comparisons matter.  A float value is
  modelled as `Option ℚ`: `none` is NaN (every ordered comparison involving
  it is false), `some q` an ordinary numeric value (the two signed zeros
  compare equal, so both are `some 0`).

* `qsort` is required by the C standard only to reorder the array so that it
  is ascending for the comparator; the algorithm is unspecified.  We model it
  by a concrete deterministic comparison sort (`sortLe`) driven by the
  comparator-derived ordering `leD`.
-/

/-- Abstract single-precision floating-point operations: zero, addition,
multiplication, division and the test against zero (`x == 0.0f`). -/
structure FPOps (α : Type) where
  zero : α
  add : α → α → α
  mul : α → α → α
  div : α → α → α
  isZero : α → Bool

/-- State of the accumulation loop of `calcular_media_ponderada` after `n`
iterations: the first component is `soma_produtos`, the second `soma_pesos`.
Iteration `i` adds `notas[i] * pesos[i]` to the first and `pesos[i]` to the
second, sequentially from index 0 upwards. -/
def mediaLoop {α : Type} (ops : FPOps α) (notas pesos : Nat → α) : Nat → α × α
  | 0 => (ops.zero, ops.zero)
  | n + 1 =>
    let s := mediaLoop ops notas pesos n
    (ops.add s.1 (ops.mul (notas n) (pesos n)), ops.add s.2 (pesos n))

/-- Model of `calcular_media_ponderada` from algorithms.c.  The arrays are
modelled as functions from indices to values; the C caller guarantees that
the reads `notas[i]`, `pesos[i]` for `0 <= i < count` are in bounds. -/
def calcular_media_ponderada {α : Type} (ops : FPOps α)
    (notas pesos : Nat → α) (count : Int) : α :=
  if count ≤ 0 then ops.zero
  else
    let s := mediaLoop ops notas pesos count.toNat
    if ops.isZero s.2 then ops.zero
    else ops.div s.1 s.2

/-- Sequential left-to-right accumulation of `f 0, ..., f (n-1)` starting
from zero: the summation order prescribed by the specification. -/
def seqSum {α : Type} (ops : FPOps α) (f : Nat → α) (n : Nat) : α :=
  (List.range n).foldl (fun acc i => ops.add acc (f i)) ops.zero

/-- Model of a C float value for comparison purposes: `none` is NaN, `some q`
an ordinary numeric value. -/
abbrev CFloat : Type := Option ℚ

/-- C float less-than: false whenever either operand is NaN. -/
def CFloat.lt : CFloat → CFloat → Bool
  | some a, some b => decide (a < b)
  | _, _ => false

/-- C float greater-than: `a > b` holds exactly when `b < a`; both are false
when an operand is NaN. -/
def CFloat.gt (a b : CFloat) : Bool :=
  CFloat.lt b a

/-- C float greater-or-equal: false whenever either operand is NaN. -/
def CFloat.ge : CFloat → CFloat → Bool
  | some a, some b => decide (b ≤ a)
  | _, _ => false

/-- Record `DesempenhoAluno` from algorithms.c: a student id and the final
average used for sorting. -/
structure DesempenhoAluno where
  id_aluno : Int
  media_final : CFloat
deriving DecidableEq

/-- Model of `comparar_desempenho` from algorithms.c: 1 when
`A.media_final < B.media_final` (B comes before A), -1 when
`A.media_final > B.media_final` (A comes before B), 0 otherwise. -/
def comparar_desempenho (a b : DesempenhoAluno) : Int :=
  if CFloat.lt a.media_final b.media_final then 1
  else if CFloat.gt a.media_final b.media_final then -1
  else 0

/-- Ordering test derived from the comparator, as `qsort` uses it: `a` may
precede `b` when the comparator does not place `b` strictly before `a`. -/
def leD (a b : DesempenhoAluno) : Bool :=
  decide (comparar_desempenho a b ≤ 0)

/-- Insert `a` into `l` immediately before the first element `b` with
`le a b`. -/
def insertLe {α : Type} (le : α → α → Bool) (a : α) : List α → List α
  | [] => [a]
  | b :: l => if le a b then a :: b :: l else b :: insertLe le a l

/-- Deterministic comparison sort modelling `qsort`: the C standard specifies
only the resulting order, not the algorithm. -/
def sortLe {α : Type} (le : α → α → Bool) : List α → List α
  | [] => []
  | a :: l => insertLe le a (sortLe le l)

/-- Model of `ordenar_por_desempenho` on a non-null array, generic in the
comparison function handed to `qsort`. -/
def ordenar_gen (le : DesempenhoAluno → DesempenhoAluno → Bool)
    (l : List DesempenhoAluno) : List DesempenhoAluno :=
  if l.length ≤ 1 then l else sortLe le l

/-- Model of `ordenar_por_desempenho` from algorithms.c on a non-null array:
the list holds the `num_alunos` records and `qsort` runs with the ordering
derived from `comparar_desempenho`. -/
def ordenar_por_desempenho (l : List DesempenhoAluno) : List DesempenhoAluno :=
  ordenar_gen leD l

/-- Guard condition of `ordenar_por_desempenho`, from the source line
`if (desempenhos == NULL || num_alunos <= 1) { return; }`.  The pointer is
modelled as an `Option` whose `none` is the NULL pointer. -/
def guard_ordenar (desempenhos : Option (List DesempenhoAluno))
    (num_alunos : Int) : Bool :=
  desempenhos.isNone || decide (num_alunos ≤ 1)

/-- Pointer-level model of `ordenar_por_desempenho`: a NULL pointer or a
count of at most one returns the memory unchanged; otherwise `qsort` sorts
the pointed records.  In contract `num_alunos` equals the length of the
pointed array; a mismatching count makes the C code read out of bounds, which
is undefined and outside this model. -/
def ordenar_c (desempenhos : Option (List DesempenhoAluno))
    (num_alunos : Int) : Option (List DesempenhoAluno) :=
  if guard_ordenar desempenhos num_alunos then desempenhos
  else desempenhos.map (sortLe leD)

/-- Contract of the C library `qsort` as `ordenar_por_desempenho` uses it:
for at most one record the guard returns immediately and the memory is
unchanged; otherwise any reordering of the records that is ascending for the
comparator (descending in `media_final`) is a permitted result.  The C
standard leaves the algorithm, and hence the order of tied records,
unspecified, so the permitted behaviour is a relation, not a function. -/
def OrdenarConforme (l r : List DesempenhoAluno) : Prop :=
  if l.length ≤ 1 then r = l
  else List.Perm r l ∧ List.Chain' (fun a b => leD a b = true) r

/-- Concrete interpretation of the abstract float operations over the
integers, used to exercise the parametric theorems on computable inputs. -/
def intOps : FPOps Int where
  zero := 0
  add := fun a b => a + b
  mul := fun a b => a * b
  div := fun a b => a / b
  isZero := fun x => decide (x = 0)

theorem seqSum_succ {α : Type} (ops : FPOps α) (f : Nat → α) (n : Nat) :
    seqSum ops f (n + 1) = ops.add (seqSum ops f n) (f n) := by
  simp [seqSum, List.range_succ]

theorem mediaLoop_eq_seqSum {α : Type} (ops : FPOps α)
    (notas pesos : Nat → α) (n : Nat) :
    mediaLoop ops notas pesos n =
      (seqSum ops (fun i => ops.mul (notas i) (pesos i)) n, seqSum ops pesos n) := by
  induction n with
  | zero => rfl
  | succ n ih => simp [mediaLoop, ih, seqSum_succ]

theorem cflt_asymm (a b : CFloat) (h : CFloat.lt a b = true) :
    CFloat.lt b a = false := by
  cases a with
  | none => simp [CFloat.lt] at h
  | some x =>
    cases b with
    | none => simp [CFloat.lt] at h
    | some y =>
      simp [CFloat.lt] at h ⊢
      exact le_of_lt h

theorem cflt_irrefl (a : CFloat) : CFloat.lt a a = false := by
  cases a <;> simp [CFloat.lt]

theorem leD_total (a b : DesempenhoAluno) : leD a b = true ∨ leD b a = true := by
  by_cases h : CFloat.lt a.media_final b.media_final = true
  · right
    have h2 := cflt_asymm _ _ h
    simp [leD, comparar_desempenho, CFloat.gt, h, h2]
  · left
    by_cases h2 : CFloat.gt a.media_final b.media_final = true
    · simp [leD, comparar_desempenho, h, h2]
    · simp [leD, comparar_desempenho, h, h2]

theorem insertLe_perm {α : Type} (le : α → α → Bool) (a : α) (l : List α) :
    List.Perm (insertLe le a l) (a :: l) := by
  induction l with
  | nil => exact List.Perm.refl _
  | cons b l ih =>
    by_cases h : le a b = true
    · simp [insertLe, h]
    · simp only [insertLe, if_neg h]
      exact (ih.cons b).trans (List.Perm.swap a b l)

theorem sortLe_perm {α : Type} (le : α → α → Bool) (l : List α) :
    List.Perm (sortLe le l) l := by
  induction l with
  | nil => exact List.Perm.refl _
  | cons a l ih =>
    simp only [sortLe]
    exact (insertLe_perm le a (sortLe le l)).trans (ih.cons a)

theorem insertLe_head? {α : Type} (le : α → α → Bool) (a : α) :
    ∀ l : List α,
      (insertLe le a l).head? = some a ∨ (insertLe le a l).head? = l.head?
  | [] => Or.inl rfl
  | b :: l => by
    by_cases h : le a b = true
    · simp [insertLe, h]
    · simp [insertLe, h]

theorem chain'_insertLe {α : Type} (le : α → α → Bool)
    (htot : ∀ a b : α, le a b = true ∨ le b a = true) (a : α) :
    ∀ l : List α, List.Chain' (fun x y => le x y = true) l →
      List.Chain' (fun x y => le x y = true) (insertLe le a l)
  | [], _ => List.chain'_singleton a
  | b :: l, hch => by
    by_cases h : le a b = true
    · simp only [insertLe, if_pos h]
      exact List.chain'_cons.mpr ⟨h, hch⟩
    · have hba : le b a = true := (htot a b).resolve_left h
      have hbl := (List.chain'_cons'.mp hch).1
      have htl := (List.chain'_cons'.mp hch).2
      have ih := chain'_insertLe le htot a l htl
      simp only [insertLe, if_neg h]
      refine List.chain'_cons'.mpr ⟨?_, ih⟩
      intro x hx
      rcases insertLe_head? le a l with hh | hh
      · rw [hh] at hx
        have hxa : a = x := by simpa using hx
        rw [← hxa]
        exact hba
      · rw [hh] at hx
        exact hbl x hx

theorem chain'_sortLe {α : Type} (le : α → α → Bool)
    (htot : ∀ a b : α, le a b = true ∨ le b a = true) :
    ∀ l : List α, List.Chain' (fun x y => le x y = true) (sortLe le l)
  | [] => List.chain'_nil
  | a :: l => by
    simp only [sortLe]
    exact chain'_insertLe le htot a (sortLe le l) (chain'_sortLe le htot l)

theorem sortLe_eq_of_chain' {α : Type} (le : α → α → Bool) :
    ∀ l : List α, List.Chain' (fun x y => le x y = true) l → sortLe le l = l
  | [], _ => rfl
  | a :: l, hch => by
    have hhd := (List.chain'_cons'.mp hch).1
    have htl := (List.chain'_cons'.mp hch).2
    have ih := sortLe_eq_of_chain' le l htl
    simp only [sortLe, ih]
    cases l with
    | nil => rfl
    | cons b l => simp [insertLe, hhd b rfl]

theorem chain'_imp_of_mem {α : Type} {R S : α → α → Prop} {P : α → Prop}
    (h : ∀ x y, P x → P y → R x y → S x y) :
    ∀ l : List α, (∀ x ∈ l, P x) → List.Chain' R l → List.Chain' S l
  | [], _, _ => List.chain'_nil
  | [a], _, _ => List.chain'_singleton a
  | a :: b :: l, hp, hch => by
    rw [List.chain'_cons] at hch ⊢
    refine ⟨h a b (hp a (by simp)) (hp b (by simp)) hch.1, ?_⟩
    exact chain'_imp_of_mem h (b :: l)
      (fun x hx => hp x (List.mem_cons_of_mem a hx)) hch.2

theorem leD_ge_of_not_nan (x y : DesempenhoAluno) (hx : x.media_final ≠ none)
    (hy : y.media_final ≠ none) (hxy : leD x y = true) :
    CFloat.ge x.media_final y.media_final = true := by
  rcases hqx : x.media_final with _ | qx
  · exact absurd hqx hx
  rcases hqy : y.media_final with _ | qy
  · exact absurd hqy hy
  by_cases hlt : qx < qy
  · exfalso
    have hone : comparar_desempenho x y = 1 := by
      simp [comparar_desempenho, hqx, hqy, CFloat.lt, hlt]
    unfold leD at hxy
    rw [hone] at hxy
    simp at hxy
  · have hle : qy ≤ qx := not_lt.mp hlt
    simp [CFloat.ge, hqx, hqy, hle]

/-- C1: for every count > 0 and every weight sequence whose accumulated sum
is nonzero, calcular_media_ponderada returns the quotient of the sequential
left-to-right sum of the products scores[i] * weights[i] by the sequential
left-to-right sum of the weights, over indices 0..count-1. -/
theorem calcular_media_ponderada_eq_div {α : Type} (ops : FPOps α)
    (notas pesos : Nat → α) (count : Int) (hc : 0 < count)
    (hz : ops.isZero (seqSum ops pesos count.toNat) = false) :
    calcular_media_ponderada ops notas pesos count =
      ops.div (seqSum ops (fun i => ops.mul (notas i) (pesos i)) count.toNat)
        (seqSum ops pesos count.toNat) := by
  unfold calcular_media_ponderada
  rw [if_neg (by omega)]
  simp [mediaLoop_eq_seqSum, hz]

/-- Witness for C1 at a concrete integer interpretation. -/
theorem calcular_media_ponderada_eq_div_witness :
    calcular_media_ponderada intOps (fun _ => 2) (fun _ => 3) 2 =
      intOps.div
        (seqSum intOps (fun i => intOps.mul ((fun _ => 2) i) ((fun _ => 3) i))
          (2 : Int).toNat)
        (seqSum intOps (fun _ => 3) (2 : Int).toNat) :=
  calcular_media_ponderada_eq_div intOps (fun _ => 2) (fun _ => 3) 2
    (by decide) (by decide)

/-- C4: for every count <= 0 the function returns zero, for every pair of
arrays, so neither array is read. -/
theorem calcular_media_ponderada_nonpos {α : Type} (ops : FPOps α)
    (notas pesos : Nat → α) (count : Int) (hc : count ≤ 0) :
    calcular_media_ponderada ops notas pesos count = ops.zero := by
  unfold calcular_media_ponderada
  rw [if_pos hc]

/-- Witness for C4 at a concrete integer interpretation. -/
theorem calcular_media_ponderada_nonpos_witness :
    calcular_media_ponderada intOps (fun _ => 5) (fun _ => 7) (-3) = intOps.zero :=
  calcular_media_ponderada_nonpos intOps (fun _ => 5) (fun _ => 7) (-3) (by decide)

/-- C5: for every count > 0 and every weight sequence whose sequential
accumulated sum tests equal to zero, the function returns zero, for every
choice of scores. -/
theorem calcular_media_ponderada_zero_weights {α : Type} (ops : FPOps α)
    (notas pesos : Nat → α) (count : Int) (hc : 0 < count)
    (hz : ops.isZero (seqSum ops pesos count.toNat) = true) :
    calcular_media_ponderada ops notas pesos count = ops.zero := by
  unfold calcular_media_ponderada
  rw [if_neg (by omega)]
  simp [mediaLoop_eq_seqSum, hz]

/-- Witness for C5: the weights 1, -1 accumulate to zero. -/
theorem calcular_media_ponderada_zero_weights_witness :
    calcular_media_ponderada intOps (fun _ => 7)
      (fun i => if i = 0 then 1 else -1) 2 = intOps.zero :=
  calcular_media_ponderada_zero_weights intOps (fun _ => 7)
    (fun i => if i = 0 then 1 else -1) 2 (by decide) (by decide)

/-- C6: comparar_desempenho returns a negative value exactly when A's average
is greater than B's, a positive value exactly when it is smaller, returns 0
whenever the averages are exactly equal, and the student ids never influence
the result. -/
theorem comparar_desempenho_spec (a b : DesempenhoAluno) :
    (comparar_desempenho a b < 0 ↔ CFloat.gt a.media_final b.media_final = true) ∧
    (0 < comparar_desempenho a b ↔ CFloat.lt a.media_final b.media_final = true) ∧
    (a.media_final = b.media_final → comparar_desempenho a b = 0) ∧
    (∀ i j : Int,
      comparar_desempenho ⟨i, a.media_final⟩ ⟨j, b.media_final⟩ =
        comparar_desempenho a b) := by
  refine ⟨?_, ?_, ?_, fun i j => rfl⟩
  · by_cases h1 : CFloat.lt a.media_final b.media_final = true
    · have h2 : CFloat.gt a.media_final b.media_final = false := by
        simpa [CFloat.gt] using cflt_asymm _ _ h1
      simp [comparar_desempenho, h1, h2]
    · by_cases h2 : CFloat.gt a.media_final b.media_final = true
      · simp [comparar_desempenho, h1, h2]
      · simp [comparar_desempenho, h1, h2]
  · by_cases h1 : CFloat.lt a.media_final b.media_final = true
    · simp [comparar_desempenho, h1]
    · by_cases h2 : CFloat.gt a.media_final b.media_final = true
      · simp [comparar_desempenho, h1, h2]
      · simp [comparar_desempenho, h1, h2]
  · intro he
    have hir := cflt_irrefl b.media_final
    simp [comparar_desempenho, he, CFloat.gt, hir]

/-- Witness for C6: two distinct students with equal averages compare as 0. -/
theorem comparar_desempenho_spec_witness :
    comparar_desempenho ⟨1, some 5⟩ ⟨2, some 5⟩ = 0 :=
  (comparar_desempenho_spec ⟨1, some 5⟩ ⟨2, some 5⟩).2.2.1 rfl

/-- C10: when either record's average is NaN, both float comparisons inside
the comparator are false and comparar_desempenho returns 0. -/
theorem comparar_desempenho_nan (a b : DesempenhoAluno)
    (h : a.media_final = none ∨ b.media_final = none) :
    CFloat.lt a.media_final b.media_final = false ∧
    CFloat.gt a.media_final b.media_final = false ∧
    comparar_desempenho a b = 0 := by
  rcases h with h | h
  · cases hb : b.media_final <;>
      simp [CFloat.lt, CFloat.gt, comparar_desempenho, h, hb]
  · cases ha : a.media_final <;>
      simp [CFloat.lt, CFloat.gt, comparar_desempenho, h, ha]

/-- Witness for C10: a NaN average compares as equal to a numeric one. -/
theorem comparar_desempenho_nan_witness :
    CFloat.lt (none : CFloat) (some 3) = false ∧
    CFloat.gt (none : CFloat) (some 3) = false ∧
    comparar_desempenho ⟨1, none⟩ ⟨2, some 3⟩ = 0 :=
  comparar_desempenho_nan ⟨1, none⟩ ⟨2, some 3⟩ (Or.inl rfl)

/-- C7: on sequences of length at most one the sort returns its input
unchanged for every comparison function, so the comparator is never invoked;
in particular ordenar_por_desempenho is the identity there. -/
theorem ordenar_gen_short (le : DesempenhoAluno → DesempenhoAluno → Bool)
    (l : List DesempenhoAluno) (h : l.length ≤ 1) :
    ordenar_gen le l = l ∧ ordenar_por_desempenho l = l :=
  ⟨by unfold ordenar_gen; rw [if_pos h],
   by unfold ordenar_por_desempenho ordenar_gen; rw [if_pos h]⟩

/-- Witness for C7 on a one-element sequence, with a comparison that never
lets any element precede another. -/
theorem ordenar_gen_short_witness :
    ordenar_gen (fun _ _ => false) [⟨7, some 9⟩] = [⟨7, some 9⟩] ∧
      ordenar_por_desempenho [⟨7, some 9⟩] = [⟨7, some 9⟩] :=
  ordenar_gen_short (fun _ _ => false) [⟨7, some 9⟩] (by decide)

/-- C2 counterexample: on the input [{1, 1.0}, {2, NaN}, {3, 0.0}] every
comparison the sort makes returns 0, so the output keeps the NaN record
between the two numeric ones, and the adjacent float comparisons
`media_final >= media_final` do not all hold. -/
theorem ordenar_nan_not_sorted :
    ¬ List.Chain'
        (fun r s : DesempenhoAluno =>
          CFloat.ge r.media_final s.media_final = true)
        (ordenar_por_desempenho [⟨1, some 1⟩, ⟨2, none⟩, ⟨3, some 0⟩]) := by
  intro hch
  have heq : ordenar_por_desempenho [⟨1, some 1⟩, ⟨2, none⟩, ⟨3, some 0⟩] =
      [⟨1, some 1⟩, ⟨2, none⟩, ⟨3, some 0⟩] := by decide
  rw [heq] at hch
  exact absurd (List.chain'_cons.mp hch).1 (by decide)

/-- C2 amended: for every record sequence in which no average is NaN, after
ordenar_por_desempenho every adjacent pair of records satisfies the float
comparison `record[i].media_final >= record[i+1].media_final`. -/
theorem ordenar_chain_ge_of_no_nan (l : List DesempenhoAluno)
    (h : ∀ r ∈ l, r.media_final ≠ none) :
    List.Chain'
      (fun r s : DesempenhoAluno => CFloat.ge r.media_final s.media_final = true)
      (ordenar_por_desempenho l) := by
  unfold ordenar_por_desempenho ordenar_gen
  by_cases hl : l.length ≤ 1
  · rw [if_pos hl]
    cases l with
    | nil => exact List.chain'_nil
    | cons a l =>
      cases l with
      | nil => exact List.chain'_singleton a
      | cons b l => simp at hl
  · rw [if_neg hl]
    have hchain := chain'_sortLe leD leD_total l
    have hmem : ∀ r ∈ sortLe leD l, r.media_final ≠ none := by
      intro r hr
      exact h r ((sortLe_perm leD l).mem_iff.mp hr)
    exact chain'_imp_of_mem
      (fun x y hx hy hxy => leD_ge_of_not_nan x y hx hy hxy)
      (sortLe leD l) hmem hchain

/-- Witness for the amended C2 on the demo class of the source file. -/
theorem ordenar_chain_ge_of_no_nan_witness :
    List.Chain'
      (fun r s : DesempenhoAluno => CFloat.ge r.media_final s.media_final = true)
      (ordenar_por_desempenho
        [⟨101, some (17/2)⟩, ⟨102, some (31/5)⟩,
         ⟨103, some (49/5)⟩, ⟨104, some (15/2)⟩]) :=
  ordenar_chain_ge_of_no_nan
    [⟨101, some (17/2)⟩, ⟨102, some (31/5)⟩,
     ⟨103, some (49/5)⟩, ⟨104, some (15/2)⟩] (by decide)

/-- C3: sorting preserves the multiset of records: the output of
ordenar_por_desempenho is a permutation of its input, so no record is added,
removed or duplicated. -/
theorem ordenar_multiset_eq (l : List DesempenhoAluno) :
    (↑(ordenar_por_desempenho l) : Multiset DesempenhoAluno) = ↑l := by
  refine Multiset.coe_eq_coe.mpr ?_
  unfold ordenar_por_desempenho ordenar_gen
  by_cases h : l.length ≤ 1
  · rw [if_pos h]
  · rw [if_neg h]
    exact sortLe_perm leD l

/-- Helper: the deterministic model used elsewhere in this file realises the
qsort contract, so the relation `OrdenarConforme` is inhabited at every
input. -/
theorem ordenar_conforme_model (l : List DesempenhoAluno) :
    OrdenarConforme l (ordenar_por_desempenho l) := by
  unfold OrdenarConforme ordenar_por_desempenho ordenar_gen
  by_cases h : l.length ≤ 1
  · rw [if_pos h, if_pos h]
  · rw [if_neg h, if_neg h]
    exact ⟨sortLe_perm leD l, chain'_sortLe leD leD_total l⟩

/-- C9 counterexample: under the qsort contract a second application of the
sort need not return its input unchanged: each order of two records with
exactly equal averages is a permitted result of sorting the other, so a
conforming second application may swap them. -/
theorem ordenar_conforme_tie_swap :
    OrdenarConforme [⟨1, some 5⟩, ⟨2, some 5⟩] [⟨2, some 5⟩, ⟨1, some 5⟩] ∧
    OrdenarConforme [⟨2, some 5⟩, ⟨1, some 5⟩] [⟨1, some 5⟩, ⟨2, some 5⟩] ∧
    ([⟨2, some 5⟩, ⟨1, some 5⟩] : List DesempenhoAluno) ≠
      [⟨1, some 5⟩, ⟨2, some 5⟩] := by
  refine ⟨?_, ?_, by decide⟩
  · unfold OrdenarConforme
    rw [if_neg (by decide)]
    exact ⟨List.Perm.swap _ _ _,
      List.chain'_cons.mpr ⟨by decide, List.chain'_singleton _⟩⟩
  · unfold OrdenarConforme
    rw [if_neg (by decide)]
    exact ⟨List.Perm.swap _ _ _,
      List.chain'_cons.mpr ⟨by decide, List.chain'_singleton _⟩⟩

/-- C9 amended: every permitted result of the sort already satisfies the
sortedness property, so no further reordering is required: leaving the
sequence unchanged is itself a permitted result of applying the sort to it a
second time.  Because qsort's tie order is unspecified, a conforming second
application may nevertheless permute records with exactly equal averages. -/
theorem ordenar_conforme_idempotent (l r : List DesempenhoAluno)
    (h : OrdenarConforme l r) : OrdenarConforme r r := by
  unfold OrdenarConforme at h ⊢
  by_cases hl : l.length ≤ 1
  · rw [if_pos hl] at h
    subst h
    rw [if_pos hl]
  · rw [if_neg hl] at h
    have hlen : r.length = l.length := h.1.length_eq
    rw [if_neg (by rw [hlen]; exact hl)]
    exact ⟨List.Perm.refl r, h.2⟩

/-- Witness for the amended C9: a descending two-record sequence is a
permitted sort result of its own reversal, and is a permitted result of
sorting itself. -/
theorem ordenar_conforme_idempotent_witness :
    OrdenarConforme [⟨1, some 5⟩, ⟨2, some 3⟩] [⟨1, some 5⟩, ⟨2, some 3⟩] :=
  ordenar_conforme_idempotent [⟨2, some 3⟩, ⟨1, some 5⟩] [⟨1, some 5⟩, ⟨2, some 3⟩]
    (by
      unfold OrdenarConforme
      rw [if_neg (by decide)]
      exact ⟨List.Perm.swap _ _ _,
        List.chain'_cons.mpr ⟨by decide, List.chain'_singleton _⟩⟩)

/-- C8 counterexample: the guard of the source line
`if (desempenhos == NULL || num_alunos <= 1)` fires on a NULL pointer with
count 5, where the length check alone would not, and the call is a defined
no-op: the implementation does contain a separate guard on the record
pointer being null. -/
theorem ordenar_guard_null_counterexample :
    guard_ordenar none 5 = true ∧ ordenar_c none 5 = none ∧
      ¬ ((5 : Int) ≤ 1) := by
  refine ⟨rfl, rfl, by decide⟩

/-- C8 amended: malformed length is handled by the length guard (count <= 1
is a no-op), and the implementation additionally guards against a null record
pointer, returning immediately, so a null reference is a defined no-op rather
than undefined behavior. -/
theorem ordenar_c_guard (p : Option (List DesempenhoAluno)) (num : Int)
    (h : p = none ∨ num ≤ 1) :
    ordenar_c p num = p := by
  rcases h with h | h
  · rw [h]
    rfl
  · unfold ordenar_c guard_ordenar
    simp [h]

/-- Witness for the amended C8: a null pointer with five records claimed. -/
theorem ordenar_c_guard_witness : ordenar_c none 5 = none :=
  ordenar_c_guard none 5 (Or.inl rfl)
